import Mathlib

/-!
Verification of the streaming metrics engine in `src/ml/cv.py`
(blink detection, rolling buffers, breathing-rate estimation,
emotion aggregation, stress/dissociation scoring, aggregation trigger).

Real-valued quantities of the Python source (floats) are modelled as
exact rationals; machine floating-point rounding is idealized away.
-/

namespace Charcot

/-- CONFIG constant from cv.py line 27. -/
def BUFFER_SECONDS : ℕ := 20

/-- CONFIG constant from cv.py line 28. -/
def FPS : ℕ := 20

/-- CONFIG constant from cv.py line 29: `SAMPLING_RATE = FPS`. -/
def SAMPLING_RATE : ℕ := FPS

/-- CONFIG constant from cv.py line 35: `BLINK_EAR_THRESHOLD = 0.18`. -/
def BLINK_EAR_THRESHOLD : ℚ := 18/100

/-- CONFIG constant from cv.py line 36: `BLINK_MIN_FRAMES = 2`. -/
def BLINK_MIN_FRAMES : ℕ := 2

/-- CONFIG constant from cv.py line 37. -/
def DISSOCIATION_FREEZE_MOVEMENT_THRESHOLD : ℚ := 1

/-- Capacity of the rolling buffers, cv.py lines 55-58:
`deque(maxlen=BUFFER_SECONDS * SAMPLING_RATE)`. -/
def WINDOW_CAP : ℕ := BUFFER_SECONDS * SAMPLING_RATE

/-- Lower breathing-band bound, cv.py line 31: `BREATH_FREQ_BOUNDS = (0.1, 0.6)`. -/
def BREATH_LOW : ℚ := 1/10

/-- Upper breathing-band bound, cv.py line 31. -/
def BREATH_HIGH : ℚ := 6/10

/-!
## BlinkDetector (cv.py lines 194-235)

The per-frame blink logic lives inside `if face_landmarks is not None:`;
when no face is detected the whole block is skipped, `blink` stays
`False` and `blink_counter_frames` keeps its value.  With a face, the
averaged EAR is compared to `BLINK_EAR_THRESHOLD` (lines 229-235).
-/

/-- One frame of the blink state machine: input is the averaged EAR when a
face was detected, `none` otherwise.  Returns the new
`blink_counter_frames` and whether a blink event was emitted this frame
(cv.py lines 196-197 and 229-235). -/
def blinkStep (blink_counter_frames : ℕ) (ear : Option ℚ) : ℕ × Bool :=
  match ear with
  | none => (blink_counter_frames, false)
  | some e =>
      if e < BLINK_EAR_THRESHOLD then
        (blink_counter_frames + 1, false)
      else if BLINK_MIN_FRAMES ≤ blink_counter_frames then
        (0, true)
      else
        (0, false)

/-- Run the blink state machine over a sequence of per-frame EAR inputs,
returning the final counter and the number of emitted blink events. -/
def blinkRun (counter : ℕ) : List (Option ℚ) → ℕ × ℕ
  | [] => (counter, 0)
  | i :: rest =>
      let r := blinkStep counter i
      let rest' := blinkRun r.1 rest
      (rest'.1, (if r.2 then 1 else 0) + rest'.2)

theorem blinkStep_low (c : ℕ) {e : ℚ} (h : e < BLINK_EAR_THRESHOLD) :
    blinkStep c (some e) = (c + 1, false) := by
  simp [blinkStep, h]

theorem blinkStep_high_ge (c : ℕ) {e : ℚ} (h : BLINK_EAR_THRESHOLD ≤ e)
    (hc : BLINK_MIN_FRAMES ≤ c) : blinkStep c (some e) = (0, true) := by
  simp [blinkStep, not_lt.mpr h, hc]

theorem blinkStep_high_lt (c : ℕ) {e : ℚ} (h : BLINK_EAR_THRESHOLD ≤ e)
    (hc : c < BLINK_MIN_FRAMES) : blinkStep c (some e) = (0, false) := by
  simp [blinkStep, not_lt.mpr h, not_le.mpr hc]

/-!
## RollingWindow (cv.py lines 54-58)

A `deque(maxlen=C)`: appending when full evicts the oldest element.
-/

/-- Append to a bounded deque of capacity `cap`: the oldest elements are
dropped so that at most `cap` remain (for a deque that already satisfies
`w.length ≤ cap` this drops at most the single oldest element, exactly
Python's `deque(maxlen=cap).append`). -/
def dequePush (cap : ℕ) (w : List α) (x : α) : List α :=
  (w ++ [x]).drop (w.length + 1 - cap)

/-- Push a whole sequence of items into an initially empty bounded deque. -/
def dequeRun (cap : ℕ) (xs : List α) : List α :=
  xs.foldl (dequePush cap) []

theorem dequePush_eq_drop (cap : ℕ) (xs : List α) (x : α) :
    dequePush cap (xs.drop (xs.length - cap)) x =
      (xs ++ [x]).drop (xs.length + 1 - cap) := by
  unfold dequePush
  rw [← @List.drop_append_of_le_length _ xs [x] (xs.length - cap)
    (by omega : xs.length - cap ≤ xs.length)]
  rw [List.drop_drop]
  congr 1
  simp only [List.length_drop]
  omega

theorem dequeRun_eq_lastN (cap : ℕ) (xs : List α) :
    dequeRun cap xs = xs.drop (xs.length - cap) := by
  unfold dequeRun
  induction xs using List.reverseRecOn with
  | nil => simp
  | append_singleton ys y ih =>
      rw [List.foldl_append, ih, List.foldl_cons, List.foldl_nil,
        dequePush_eq_drop]
      simp only [List.length_append, List.length_singleton]

/-!
## Claims C1-C3
-/

/-- C1 (counterexample): the claim says a `none` EAR frame behaves like a
high-EAR frame, resetting the run counter to 0.  On the code, with a run
counter of 2 a `none` frame leaves the counter at 2 and emits nothing,
while a high-EAR frame (EAR 0.2 ≥ 0.18) resets the counter to 0 and
emits a blink: the two behaviours differ. -/
theorem C1_blink_none_counterexample :
    (blinkStep 2 none).1 = 2 ∧ (blinkStep 2 none).1 ≠ 0 ∧
      blinkStep 2 none ≠ blinkStep 2 (some (1/5)) ∧
      blinkStep 2 (some (1/5)) = (0, true) := by
  have h : blinkStep 2 (some (1/5)) = (0, true) :=
    blinkStep_high_ge 2 (by norm_num [BLINK_EAR_THRESHOLD])
      (by norm_num [BLINK_MIN_FRAMES])
  refine ⟨rfl, by simp [blinkStep], ?_, h⟩
  rw [h]
  simp [blinkStep]

/-- C1 (amended): for every frame in which the EAR input is `none` (no
face detected), the blink state machine is skipped entirely: the
consecutive-low-frame run counter is left unchanged (not reset) and no
blink event is emitted on that frame. -/
theorem C1_blink_none_skips (c : ℕ) : blinkStep c none = (c, false) := rfl

/-- C2: starting from a run counter of 0, `BLINK_MIN_FRAMES` consecutive
frames with EAR below `BLINK_EAR_THRESHOLD` followed by one frame with
EAR at or above the threshold emit exactly one blink event, while
`BLINK_MIN_FRAMES − 1` low-EAR frames followed by a high-EAR frame emit
zero blink events. -/
theorem C2_blink_min_frames (l₁ l₂ : List ℚ) (hi : ℚ)
    (h₁ : l₁.length = BLINK_MIN_FRAMES)
    (h₂ : ∀ x ∈ l₁, x < BLINK_EAR_THRESHOLD)
    (h₃ : l₂.length = BLINK_MIN_FRAMES - 1)
    (h₄ : ∀ x ∈ l₂, x < BLINK_EAR_THRESHOLD)
    (hhi : BLINK_EAR_THRESHOLD ≤ hi) :
    (blinkRun 0 (l₁.map some ++ [some hi])).2 = 1 ∧
      (blinkRun 0 (l₂.map some ++ [some hi])).2 = 0 := by
  have hBM : BLINK_MIN_FRAMES = 2 := rfl
  rw [hBM] at h₁ h₃
  match l₁, h₁ with
  | [a, b], _ =>
    match l₂, h₃ with
    | [c], _ =>
      have ha := h₂ a (by simp)
      have hb := h₂ b (by simp)
      have hc := h₄ c (by simp)
      have e₁ : blinkStep 0 (some a) = (1, false) := blinkStep_low 0 ha
      have e₂ : blinkStep 1 (some b) = (2, false) := blinkStep_low 1 hb
      have e₃ : blinkStep 2 (some hi) = (0, true) :=
        blinkStep_high_ge 2 hhi (by norm_num [BLINK_MIN_FRAMES])
      have e₄ : blinkStep 0 (some c) = (1, false) := blinkStep_low 0 hc
      have e₅ : blinkStep 1 (some hi) = (0, false) :=
        blinkStep_high_lt 1 hhi (by norm_num [BLINK_MIN_FRAMES])
      constructor
      · simp [blinkRun, e₁, e₂, e₃]
      · simp [blinkRun, e₄, e₅]

/-- C2 witness: two low-EAR frames (0.1) then a high-EAR frame (0.3)
emit one blink; one low-EAR frame then a high-EAR frame emit none. -/
theorem C2_blink_min_frames_witness :
    (blinkRun 0 ([(1:ℚ)/10, 1/10].map some ++ [some (3/10)])).2 = 1 ∧
      (blinkRun 0 ([(1:ℚ)/10].map some ++ [some (3/10)])).2 = 0 :=
  C2_blink_min_frames [1/10, 1/10] [1/10] (3/10) rfl
    (by norm_num [BLINK_EAR_THRESHOLD]) rfl
    (by norm_num [BLINK_EAR_THRESHOLD])
    (by norm_num [BLINK_EAR_THRESHOLD])

/-- C3: for every sequence of pushes into a rolling window of capacity
`WINDOW_CAP = BUFFER_SECONDS × SAMPLING_RATE`, the window length never
exceeds the capacity, and the contents always equal the last
`WINDOW_CAP` pushed items in oldest-to-newest order (in particular, once
more than `WINDOW_CAP` items have been pushed, the oldest is evicted
first, FIFO). -/
theorem C3_rolling_window_fifo (xs : List ℚ) :
    (dequeRun WINDOW_CAP xs).length ≤ WINDOW_CAP ∧
      dequeRun WINDOW_CAP xs = xs.drop (xs.length - WINDOW_CAP) := by
  refine ⟨?_, dequeRun_eq_lastN WINDOW_CAP xs⟩
  rw [dequeRun_eq_lastN]
  simp only [List.length_drop]
  omega

/-!
## Green-channel buffer advance (cv.py lines 176-181)
-/

/-- Per-frame green-signal buffer update: when the sampler returned a
value it is appended; on `none` the previous sample (or 0.0 for an empty
buffer) is appended instead, "to keep buffers aligned"
(cv.py lines 177-181). -/
def greenUpdate (green_signal_buffer : List ℚ) (green_val : Option ℚ) : List ℚ :=
  match green_val with
  | some v => dequePush WINDOW_CAP green_signal_buffer v
  | none =>
      dequePush WINDOW_CAP green_signal_buffer
        (green_signal_buffer.getLast?.getD 0)

theorem dequePush_length (cap : ℕ) (w : List α) (x : α) :
    (dequePush cap w x).length = min (w.length + 1) cap := by
  simp only [dequePush, List.length_drop, List.length_append,
    List.length_singleton]
  omega

theorem dequePush_getLast (cap : ℕ) (hcap : 1 ≤ cap) (w : List α) (x : α) :
    (dequePush cap w x).getLast? = some x := by
  unfold dequePush
  rw [List.drop_append_of_le_length (by omega)]
  exact List.getLast?_concat _

/-- C5: on every frame the green-signal buffer gains exactly one entry
(up to capacity eviction), and on a `none` sample the appended entry is
the previous (most recent) buffered sample, or 0.0 when the buffer is
empty. -/
theorem C5_green_carry_forward (buf : List ℚ) (g : Option ℚ) :
    (greenUpdate buf g).length = min (buf.length + 1) WINDOW_CAP ∧
      (greenUpdate buf none).getLast? = some (buf.getLast?.getD 0) ∧
      ∀ v : ℚ, (greenUpdate buf (some v)).getLast? = some v := by
  refine ⟨?_, ?_, fun v => ?_⟩
  · cases g <;> exact dequePush_length WINDOW_CAP buf _
  · exact dequePush_getLast WINDOW_CAP (by norm_num [WINDOW_CAP, BUFFER_SECONDS, SAMPLING_RATE, FPS]) _ _
  · exact dequePush_getLast WINDOW_CAP (by norm_num [WINDOW_CAP, BUFFER_SECONDS, SAMPLING_RATE, FPS]) _ _

/-!
## Stress score (cv.py lines 288-300) and dissociation score (306-321)
-/

/-- Rational model of `np.clip(x, lo, hi)`. -/
def clipQ (x lo hi : ℚ) : ℚ := min (max x lo) hi

theorem le_clipQ (x lo hi : ℚ) (h : lo ≤ hi) : lo ≤ clipQ x lo hi :=
  le_min (le_max_right _ _) h

theorem clipQ_le (x lo hi : ℚ) : clipQ x lo hi ≤ hi := min_le_right _ _

/-- Stress score heuristic (cv.py lines 288-300): breathing, blink-rate
and motion contributions accumulated then clipped to [0, 100]. -/
def stressScore (breaths_per_min : Option ℚ)
    (blink_rate_per_min motion_mean : ℚ) : ℚ :=
  let stress₀ : ℚ := 0
  let stress₁ :=
    match breaths_per_min with
    | none => stress₀
    | some bpm =>
        if bpm > 20 then stress₀ + min ((bpm - 20) * 2) 40
        else if bpm < 8 then stress₀ + min ((8 - bpm) * 2) 10
        else stress₀
  let stress₂ :=
    if blink_rate_per_min > 30 then
      stress₁ + min ((blink_rate_per_min - 30) * (8/10)) 15
    else stress₁
  let stress₃ := stress₂ + min (motion_mean * 5) 25
  clipQ stress₃ 0 100

/-- C6: on every aggregation tick (with a breathing estimate present)
the stress score is the clip to [0,100] of the sum of the three
piecewise contributions described in the spec, and for all inputs —
breathing estimate present or not, however extreme — the score lies in
[0, 100]. -/
theorem C6_stress_formula (bpm blink_rate_per_min motion_mean : ℚ) :
    stressScore (some bpm) blink_rate_per_min motion_mean =
      clipQ ((if bpm > 20 then min ((bpm - 20) * 2) 40
          else if bpm < 8 then min ((8 - bpm) * 2) 10 else 0)
        + (if blink_rate_per_min > 30 then
            min ((blink_rate_per_min - 30) * (8/10)) 15 else 0)
        + min (motion_mean * 5) 25) 0 100 ∧
      ∀ b : Option ℚ, 0 ≤ stressScore b blink_rate_per_min motion_mean ∧
        stressScore b blink_rate_per_min motion_mean ≤ 100 := by
  constructor
  · simp only [stressScore]
    split_ifs <;> (congr 1 <;> ring)
  · intro b
    cases b <;>
      exact ⟨le_clipQ _ _ _ (by norm_num), clipQ_le _ _ _⟩

/-- The 1e-9 guard added to denominators throughout the aggregation tick
(cv.py lines 310, 314, 318). -/
def EPS9 : ℚ := 1/1000000000

/-- Dissociation indicator heuristic (cv.py lines 318-321): note the
motion normalizer divides by `DISSOCIATION_FREEZE_MOVEMENT_THRESHOLD + 1e-9`. -/
def dissociationScore (motion_mean expressivity blink_rate_per_min : ℚ) : ℚ :=
  let motion_score :=
    clipQ (motion_mean / (DISSOCIATION_FREEZE_MOVEMENT_THRESHOLD + EPS9)) 0 1
  let blink_norm := clipQ (blink_rate_per_min / 20) 0 1
  clipQ ((1 - motion_score) * (1/2) + (1 - expressivity) * (4/10)
    + (1 - blink_norm) * (1/10)) 0 1

/-- Modelled from the spec's words for claim C7: the claimed dissociation
formula, whose motion normalizer divides by
`DISSOCIATION_FREEZE_MOVEMENT_THRESHOLD` alone (no 1e-9 guard). -/
def dissociationScoreClaimed
    (motion_mean expressivity blink_rate_per_min : ℚ) : ℚ :=
  let motion_score :=
    clipQ (motion_mean / DISSOCIATION_FREEZE_MOVEMENT_THRESHOLD) 0 1
  let blink_norm := clipQ (blink_rate_per_min / 20) 0 1
  clipQ ((1/2) * (1 - motion_score) + (4/10) * (1 - expressivity)
    + (1/10) * (1 - blink_norm)) 0 1

/-- C7 (counterexample): at motion_mean = 1, expressivity = 0,
blink_rate = 0 the code's score is strictly above the claimed
`clip(0.5·(1−motion_score) + 0.4·(1−expressivity) + 0.1·(1−blink_norm))`
with `motion_score = clip(motion_mean / DISSOCIATION_FREEZE_MOVEMENT_THRESHOLD, 0, 1)`:
the code divides by the threshold plus 1e-9, so its motion_score falls
short of 1 and the score is 1/2 + 1/(2·(10⁹+1)) instead of 1/2. -/
theorem C7_dissociation_counterexample :
    dissociationScore 1 0 0 ≠ dissociationScoreClaimed 1 0 0 ∧
      dissociationScoreClaimed 1 0 0 = 1/2 := by
  constructor <;>
    norm_num [dissociationScore, dissociationScoreClaimed, clipQ, EPS9,
      DISSOCIATION_FREEZE_MOVEMENT_THRESHOLD, min_def, max_def]

/-- C7 (amended): on every aggregation tick the dissociation score
equals `clip(0.5×(1−motion_score) + 0.4×(1−expressivity) +
0.1×(1−blink_norm), 0, 1)` where
`motion_score = clip(motion_mean / (DISSOCIATION_FREEZE_MOVEMENT_THRESHOLD + 1e-9), 0, 1)`
and `blink_norm = clip(blink_rate_per_min / 20, 0, 1)`; in particular
the score is always in [0, 1]. -/
theorem C7_dissociation_formula
    (motion_mean expressivity blink_rate_per_min : ℚ) :
    dissociationScore motion_mean expressivity blink_rate_per_min =
      clipQ ((1/2) * (1 - clipQ (motion_mean /
            (DISSOCIATION_FREEZE_MOVEMENT_THRESHOLD + EPS9)) 0 1)
        + (4/10) * (1 - expressivity)
        + (1/10) * (1 - clipQ (blink_rate_per_min / 20) 0 1)) 0 1 ∧
      0 ≤ dissociationScore motion_mean expressivity blink_rate_per_min ∧
        dissociationScore motion_mean expressivity blink_rate_per_min ≤ 1 := by
  refine ⟨?_, ?_, ?_⟩
  · simp only [dissociationScore]
    congr 1
    ring
  · exact le_clipQ _ _ _ (by norm_num)
  · exact clipQ_le _ _ _

/-!
## Emotion distribution aggregation (cv.py lines 270-279)

Python dicts keep insertion order; they are modelled as association
lists with unique keys kept in insertion order.
-/

/-- Per-label probability mapping (a Python dict of label → float). -/
abbrev EmotionMap := List (String × ℚ)

/-- One step of `agg[k] = agg.get(k, 0.0) + v`: add `v` to the entry for
`k`, appending a fresh entry (at the end, as dict insertion does) when
the key is absent. -/
def dictAdd (m : EmotionMap) (k : String) (v : ℚ) : EmotionMap :=
  if m.any (fun p => p.1 == k) then
    m.map (fun p => if p.1 == k then (p.1, p.2 + v) else p)
  else m ++ [(k, v)]

/-- The aggregation loop of cv.py lines 272-276: sum every per-frame
emotion dict of the window into one mapping. -/
def aggregateEmotions (window : List EmotionMap) : EmotionMap :=
  window.foldl (fun agg e => e.foldl (fun agg' p => dictAdd agg' p.1 p.2) agg) []

/-- Sum of the values of a mapping (`sum(agg.values())`, cv.py line 278;
the `if agg else 0.0` guard is the same as summing the empty list). -/
def valuesSum (m : EmotionMap) : ℚ := (m.map Prod.snd).sum

/-- Normalization of cv.py line 279:
`{k: (v/total if total>0 else 0.0) for k, v in agg.items()}`. -/
def normalizeEmotions (agg : EmotionMap) : EmotionMap :=
  agg.map (fun p => (p.1, if valuesSum agg > 0 then p.2 / valuesSum agg else 0))

/-- The trailing sub-window used on each aggregation tick
(`list(frame_buffer)[-int(SAMPLING_RATE*5):]`, cv.py line 273). -/
def trailingWindow (frames : List EmotionMap) : List EmotionMap :=
  frames.drop (frames.length - SAMPLING_RATE * 5)

/-- Full emotion-distribution computation of one aggregation tick. -/
def emotionsTick (frames : List EmotionMap) : EmotionMap :=
  normalizeEmotions (aggregateEmotions (trailingWindow frames))

theorem list_sum_div (l : List ℚ) (t : ℚ) :
    (l.map (fun x => x / t)).sum = l.sum / t := by
  induction l with
  | nil => simp
  | cons x xs ih => simp [ih, add_div]

theorem valuesSum_normalize (agg : EmotionMap) (h : 0 < valuesSum agg) :
    valuesSum (normalizeEmotions agg) = 1 := by
  have hne : valuesSum agg ≠ 0 := ne_of_gt h
  have h1 : normalizeEmotions agg
      = agg.map fun p => (p.1, p.2 / valuesSum agg) := by
    unfold normalizeEmotions
    simp only [gt_iff_lt, h, if_true]
  have h2 : valuesSum (normalizeEmotions agg)
      = ((agg.map Prod.snd).map fun x => x / valuesSum agg).sum := by
    rw [h1]
    simp only [valuesSum, List.map_map]
    rfl
  rw [h2, list_sum_div]
  exact div_self hne

/-- C8 (counterexample): a tick whose trailing window holds a single
frame with the one-entry distribution {"happy": 0.0} has grand total 0,
yet the produced mapping is {"happy": 0.0} — not the empty mapping the
claim requires. -/
theorem C8_emotion_agg_counterexample :
    valuesSum (aggregateEmotions (trailingWindow [[("happy", 0)]])) = 0 ∧
      emotionsTick [[("happy", 0)]] = [("happy", 0)] ∧
      emotionsTick [[("happy", 0)]] ≠ [] := by
  refine ⟨?_, ?_, ?_⟩ <;>
    simp [emotionsTick, trailingWindow, aggregateEmotions, dictAdd,
      normalizeEmotions, valuesSum, SAMPLING_RATE, FPS]

/-- C8 (amended): on every aggregation tick the emotion aggregator sums
per-label probabilities over the trailing sub-window and normalizes by
the grand total; when the total is positive the values of the produced
mapping sum to 1, and when the total is 0 every produced value is 0 (the
mapping is empty exactly when no label occurred in the sub-window); no
division by zero occurs, the zero-total case being handled by an
explicit guard. -/
theorem C8_emotion_agg_normalization (frames : List EmotionMap) :
    (0 < valuesSum (aggregateEmotions (trailingWindow frames)) →
        valuesSum (emotionsTick frames) = 1) ∧
      (valuesSum (aggregateEmotions (trailingWindow frames)) = 0 →
        ∀ p ∈ emotionsTick frames, p.2 = 0) := by
  constructor
  · intro h
    exact valuesSum_normalize _ h
  · intro h p hp
    simp only [emotionsTick, normalizeEmotions, List.mem_map] at hp
    obtain ⟨q, _, hq⟩ := hp
    rw [← hq]
    simp [h]

/-- C8 witness: a window with distribution {"happy": 0.6, "neutral": 0.4}
has total 1 and normalizes to values summing to 1; the window with
{"happy": 0.0} has total 0 and yields only zero values. -/
theorem C8_emotion_agg_witness :
    valuesSum (emotionsTick [[("happy", 3/5), ("neutral", 2/5)]]) = 1 ∧
      ∀ p ∈ emotionsTick [[("happy", 0)]], p.2 = 0 := by
  constructor
  · exact (C8_emotion_agg_normalization [[("happy", 3/5), ("neutral", 2/5)]]).1
      (by simp [trailingWindow, aggregateEmotions, dictAdd, valuesSum,
        SAMPLING_RATE, FPS]; norm_num)
  · exact (C8_emotion_agg_normalization [[("happy", 0)]]).2
      (by simp [trailingWindow, aggregateEmotions, dictAdd, valuesSum,
        SAMPLING_RATE, FPS])

/-!
## Per-frame engine state and the aggregation trigger
(cv.py lines 129-135, 143-145, 229-235, 249-250)
-/

/-- Per-frame external inputs on the processing path: the wall-clock
time of the frame, and the averaged EAR when a face was detected. -/
structure FrameIn where
  w : ℚ
  ear : Option ℚ

/-- The rolling state mutated by the frame loop, restricted to the parts
the temporal and blink-collection claims are about. -/
structure EngState where
  timestamp_buffer : List ℚ
  last_print : ℚ
  blink_timestamps : List ℚ
  blink_counter_frames : ℕ

/-- One iteration of the frame loop: the timestamp is buffered
(cv.py line 145), the blink state machine runs (lines 229-235, appending
to `blink_timestamps` on an emitted blink), and the aggregation tick
fires iff `len(timestamp_buffer) >= SAMPLING_RATE * 4` and more than 1.0
second has elapsed since `last_print` (line 249), in which case
`last_print` is updated to the current time (line 250).  Returns the new
state and whether the tick fired. -/
def engineStep (s : EngState) (fr : FrameIn) : EngState × Bool :=
  let ts := dequePush WINDOW_CAP s.timestamp_buffer fr.w
  let b := blinkStep s.blink_counter_frames fr.ear
  let bts := if b.2 then s.blink_timestamps ++ [fr.w] else s.blink_timestamps
  let fire := decide (SAMPLING_RATE * 4 ≤ ts.length) &&
    decide (1 < fr.w - s.last_print)
  ({ timestamp_buffer := ts
     last_print := if fire then fr.w else s.last_print
     blink_timestamps := bts
     blink_counter_frames := b.1 }, fire)

/-- Run the frame loop over a list of frames, collecting the wall-clock
times of the frames on which the aggregation tick fired. -/
def engineRun (s : EngState) : List FrameIn → EngState × List ℚ
  | [] => (s, [])
  | fr :: rest =>
      let st := engineStep s fr
      let r := engineRun st.1 rest
      (r.1, (if st.2 then [fr.w] else []) ++ r.2)

theorem engineStep_fire_iff (s : EngState) (fr : FrameIn) :
    (engineStep s fr).2 = true ↔
      SAMPLING_RATE * 4 ≤ (dequePush WINDOW_CAP s.timestamp_buffer fr.w).length ∧
        1 < fr.w - s.last_print := by
  simp [engineStep]

set_option maxRecDepth 4000 in
theorem engineStep_lastPrint (s : EngState) (fr : FrameIn) :
    (engineStep s fr).1.last_print =
      if (engineStep s fr).2 then fr.w else s.last_print := by
  simp only [engineStep]

theorem engineStep_tsBuf (s : EngState) (fr : FrameIn) :
    (engineStep s fr).1.timestamp_buffer =
      dequePush WINDOW_CAP s.timestamp_buffer fr.w := by
  simp only [engineStep]

theorem engineRun_chain (frs : List FrameIn) (s : EngState) :
    List.Chain' (fun t₁ t₂ => 1 < t₂ - t₁)
      (s.last_print :: (engineRun s frs).2) := by
  induction frs generalizing s with
  | nil => simp [engineRun]
  | cons fr rest ih =>
      have hstep := engineStep_lastPrint s fr
      by_cases hf : (engineStep s fr).2 = true
      · have hcond := (engineStep_fire_iff s fr).mp hf
        have hlp : (engineStep s fr).1.last_print = fr.w := by
          rw [hstep, hf, if_pos rfl]
        have hchain := ih (engineStep s fr).1
        rw [hlp] at hchain
        simp only [engineRun, hf, if_pos rfl]
        exact List.chain'_cons.mpr ⟨by linarith [hcond.2], hchain⟩
      · have hf' : (engineStep s fr).2 = false := by
          simpa using hf
        have hlp : (engineStep s fr).1.last_print = s.last_print := by
          rw [hstep, hf']
          simp
        have hchain := ih (engineStep s fr).1
        rw [hlp] at hchain
        simp only [engineRun, hf']
        simpa using hchain

/-- C9: the aggregation tick never fires on a frame unless the timestamp
buffer holds at least `4 × SAMPLING_RATE` samples and more than 1.0
second of wall-clock time has elapsed since the previous tick (so in
particular at least 1.0 second); consequently, over any run, any two
consecutive tick times are more than 1.0 second apart — at most one tick
per elapsed second. -/
theorem C9_metrics_trigger (s : EngState) (frs : List FrameIn) :
    (∀ s₀ fr, (engineStep s₀ fr).2 = true →
        SAMPLING_RATE * 4 ≤ (engineStep s₀ fr).1.timestamp_buffer.length ∧
          1 ≤ fr.w - s₀.last_print ∧ 1 < fr.w - s₀.last_print) ∧
      List.Chain' (fun t₁ t₂ => 1 < t₂ - t₁)
        (s.last_print :: (engineRun s frs).2) := by
  constructor
  · intro s₀ fr hf
    have h := (engineStep_fire_iff s₀ fr).mp hf
    rw [engineStep_tsBuf]
    exact ⟨h.1, le_of_lt h.2, h.2⟩
  · exact engineRun_chain frs s

/-- C9 witness: a single frame at time 2 on a state whose buffer already
holds `4 × SAMPLING_RATE` timestamps and whose last tick was at time 0
fires, and the concrete trigger conditions hold. -/
theorem C9_metrics_trigger_witness :
    SAMPLING_RATE * 4 ≤
        (engineStep ⟨List.replicate 80 0, 0, [], 0⟩ ⟨2, none⟩).1.timestamp_buffer.length ∧
      1 ≤ (2:ℚ) - 0 ∧ 1 < (2:ℚ) - 0 :=
  (C9_metrics_trigger ⟨List.replicate 80 0, 0, [], 0⟩ []).1
    ⟨List.replicate 80 0, 0, [], 0⟩ ⟨2, none⟩
    (by simp [engineStep, blinkStep, dequePush, SAMPLING_RATE, FPS,
      WINDOW_CAP, BUFFER_SECONDS])

theorem engineStep_blinkTs (s : EngState) (fr : FrameIn) :
    ∃ tail, (engineStep s fr).1.blink_timestamps
      = s.blink_timestamps ++ tail := by
  by_cases hb : (blinkStep s.blink_counter_frames fr.ear).2 = true
  · exact ⟨[fr.w], by simp [engineStep, hb]⟩
  · refine ⟨[], by simp [engineStep, Bool.eq_false_iff.mpr hb]⟩

/-- C10: no per-frame operation removes elements from the blink-event
timestamp collection: every frame leaves the previous collection as a
prefix (appending at most the current blink), so over any sequence of
frames its length is monotonically nondecreasing — old events are
retained, not pruned. -/
theorem C10_blink_timestamps_retained (s : EngState) (fr : FrameIn)
    (frs : List FrameIn) :
    (∃ tail, (engineStep s fr).1.blink_timestamps
        = s.blink_timestamps ++ tail) ∧
      s.blink_timestamps.length ≤
        ((engineRun s frs).1).blink_timestamps.length := by
  refine ⟨engineStep_blinkTs s fr, ?_⟩
  induction frs generalizing s with
  | nil => simp [engineRun]
  | cons fr₀ rest ih =>
      obtain ⟨tail, htail⟩ := engineStep_blinkTs s fr₀
      have h1 : s.blink_timestamps.length ≤
          (engineStep s fr₀).1.blink_timestamps.length := by
        rw [htail]
        simp
      calc s.blink_timestamps.length
          ≤ (engineStep s fr₀).1.blink_timestamps.length := h1
        _ ≤ ((engineRun (engineStep s fr₀).1 rest).1).blink_timestamps.length :=
            ih (engineStep s fr₀).1
        _ = ((engineRun s (fr₀ :: rest)).1).blink_timestamps.length := by
            simp [engineRun]

/-!
## BreathingEstimator: dominant_freq_from_signal (cv.py lines 108-122)

`welch(sig, fs=fs, nperseg=min(256, len(sig)))` returns the one-sided
frequency grid `np.fft.rfftfreq(nperseg, 1/fs)` together with the power
values `Pxx`.  The frequency grid is exact rational data and is modelled
directly; the power values come from a float FFT of Hann-windowed
segments (irrational arithmetic) and are abstracted as a parameter
`psd`, applied to the detrended signal and the segment length.  The
4-sample guard, the linear detrending, the band mask and the
first-occurrence argmax selection are translated from the source.
-/

/-- One-sided FFT frequency grid `np.fft.rfftfreq(n, 1/fs)`:
`k·fs/n` for `k = 0 .. n/2`. -/
def rfftfreq (n : ℕ) (fs : ℚ) : List ℚ :=
  (List.range (n / 2 + 1)).map (fun (k : ℕ) => (k : ℚ) * fs / (n : ℚ))

/-- Linear detrend (`scipy.signal.detrend`): subtract the least-squares
line fitted against the sample index.  (The slope denominator is nonzero
for every series of length ≥ 2; the estimator only calls this for
length ≥ 4.) -/
def detrendQ (sig : List ℚ) : List ℚ :=
  let n : ℚ := (sig.length : ℚ)
  let xs : List ℚ := (List.range sig.length).map (fun (i : ℕ) => (i : ℚ))
  let sx := xs.sum
  let sy := sig.sum
  let sxx := (xs.map (fun x => x * x)).sum
  let sxy := ((xs.zip sig).map (fun p => p.1 * p.2)).sum
  let den := n * sxx - sx * sx
  let slope := (n * sxy - sx * sy) / den
  let intercept := (sy - slope * sx) / n
  (xs.zip sig).map (fun p => p.2 - (slope * p.1 + intercept))

/-- First-occurrence argmax over (frequency, power) pairs, as
`np.argmax` keeps the first index attaining the maximum: the running
best is replaced only on a strictly larger power. -/
def argmaxPair (best : ℚ × ℚ) : List (ℚ × ℚ) → ℚ × ℚ
  | [] => best
  | p :: rest => argmaxPair (if best.2 < p.2 then p else best) rest

/-- The in-band (frequency, power) pairs: `f[mask]` zipped with
`Pxx[mask]` for `mask = (f >= low) & (f <= high)`
(cv.py lines 116-120). -/
def bandOf (psd : List ℚ → ℕ → List ℚ) (sig : List ℚ)
    (fs low high : ℚ) : List (ℚ × ℚ) :=
  ((rfftfreq (min 256 sig.length) fs).zip
      (psd (detrendQ sig) (min 256 sig.length))).filter
    (fun p => decide (low ≤ p.1) && decide (p.1 ≤ high))

/-- `dominant_freq_from_signal` (cv.py lines 108-122): `none` for fewer
than 4 samples; `none` when the band mask selects no frequency bin;
otherwise the frequency of the (first) maximum in-band power. -/
def dominant_freq_from_signal (psd : List ℚ → ℕ → List ℚ)
    (sig : List ℚ) (fs low high : ℚ) : Option ℚ :=
  if sig.length < 4 then none
  else
    match bandOf psd sig fs low high with
    | [] => none
    | b :: bs => some (argmaxPair b bs).1

theorem rfftfreq_length (n : ℕ) (fs : ℚ) :
    (rfftfreq n fs).length = n / 2 + 1 := by
  unfold rfftfreq
  rw [List.length_map, List.length_range]

theorem argmaxPair_spec (l : List (ℚ × ℚ)) (best : ℚ × ℚ) :
    (argmaxPair best l = best ∨ argmaxPair best l ∈ l) ∧
      best.2 ≤ (argmaxPair best l).2 ∧
      ∀ q ∈ l, q.2 ≤ (argmaxPair best l).2 := by
  induction l generalizing best with
  | nil => simp [argmaxPair]
  | cons p rest ih =>
      simp only [argmaxPair]
      obtain ⟨hmem, hbest, hall⟩ := ih (if best.2 < p.2 then p else best)
      have hb'cases : (if best.2 < p.2 then p else best) = p ∨
          (if best.2 < p.2 then p else best) = best := by
        split_ifs <;> simp
      have hble : best.2 ≤ (if best.2 < p.2 then p else best).2 := by
        split_ifs with hc
        · exact le_of_lt hc
        · exact le_refl _
      have hple : p.2 ≤ (if best.2 < p.2 then p else best).2 := by
        split_ifs with hc
        · exact le_refl _
        · exact le_of_not_lt hc
      refine ⟨?_, le_trans hble hbest, ?_⟩
      · rcases hmem with h | h
        · rcases hb'cases with h2 | h2
          · right
            rw [h, h2]
            exact List.mem_cons_self _ _
          · left
            rw [h, h2]
        · right
          exact List.mem_cons_of_mem _ h
      · intro q hq
        rcases List.mem_cons.mp hq with h | h
        · rw [h]
          exact le_trans hple hbest
        · exact hall q h

theorem bandOf_eq_nil_iff (psd : List ℚ → ℕ → List ℚ) (sig : List ℚ)
    (fs low high : ℚ)
    (hlen : (psd (detrendQ sig) (min 256 sig.length)).length
      = min 256 sig.length / 2 + 1) :
    bandOf psd sig fs low high = [] ↔
      ∀ fb ∈ rfftfreq (min 256 sig.length) fs,
        ¬(low ≤ fb ∧ fb ≤ high) := by
  unfold bandOf
  rw [List.filter_eq_nil_iff]
  constructor
  · intro h fb hfb hband
    obtain ⟨i, hi, hget⟩ := List.mem_iff_getElem.mp hfb
    have hizip : i <
        ((rfftfreq (min 256 sig.length) fs).zip
          (psd (detrendQ sig) (min 256 sig.length))).length := by
      rw [List.length_zip, rfftfreq_length, hlen]
      rw [rfftfreq_length] at hi
      omega
    have hmem := List.getElem_mem hizip
    have := h _ hmem
    rw [List.getElem_zip] at this
    simp only [Bool.and_eq_true, decide_eq_true_eq, not_and] at this
    rw [hget] at this
    exact (this hband.1) hband.2
  · intro h p hp
    obtain ⟨a, b⟩ := p
    have hfst := (List.of_mem_zip hp).1
    simp only [Bool.and_eq_true, decide_eq_true_eq]
    intro hcontra
    exact h a hfst hcontra

/-- C4: the breathing estimator returns `none` for every series of fewer
than 4 samples; for a series of at least 4 samples it returns `none`
exactly when no frequency bin of the Welch grid (segment length
`min(256, length)`, after linear detrending) falls in the band
[`BREATH_LOW`, `BREATH_HIGH`]; and when some bin falls in the band it
returns the frequency of a maximal-power in-band (frequency, power)
pair.  `psd` is the abstract Welch power spectrum, assumed only to
produce one power value per frequency bin. -/
theorem C4_breathing_estimator (psd : List ℚ → ℕ → List ℚ)
    (sig : List ℚ) (fs : ℚ)
    (hlen : (psd (detrendQ sig) (min 256 sig.length)).length
      = min 256 sig.length / 2 + 1) :
    (sig.length < 4 →
        dominant_freq_from_signal psd sig fs BREATH_LOW BREATH_HIGH = none) ∧
      (4 ≤ sig.length →
        (dominant_freq_from_signal psd sig fs BREATH_LOW BREATH_HIGH = none ↔
          ∀ fb ∈ rfftfreq (min 256 sig.length) fs,
            ¬(BREATH_LOW ≤ fb ∧ fb ≤ BREATH_HIGH))) ∧
      (4 ≤ sig.length →
        bandOf psd sig fs BREATH_LOW BREATH_HIGH ≠ [] →
        ∃ p ∈ bandOf psd sig fs BREATH_LOW BREATH_HIGH,
          dominant_freq_from_signal psd sig fs BREATH_LOW BREATH_HIGH
              = some p.1 ∧
            ∀ q ∈ bandOf psd sig fs BREATH_LOW BREATH_HIGH, q.2 ≤ p.2) := by
  refine ⟨?_, ?_, ?_⟩
  · intro h4
    simp [dominant_freq_from_signal, h4]
  · intro h4
    have h4' : ¬ sig.length < 4 := not_lt.mpr h4
    cases hbd : bandOf psd sig fs BREATH_LOW BREATH_HIGH with
    | nil =>
        have hnone :
            dominant_freq_from_signal psd sig fs BREATH_LOW BREATH_HIGH
              = none := by
          simp [dominant_freq_from_signal, h4', hbd]
        rw [hnone]
        simp only [true_iff]
        exact (bandOf_eq_nil_iff psd sig fs BREATH_LOW BREATH_HIGH hlen).mp hbd
    | cons b bs =>
        have hsome :
            dominant_freq_from_signal psd sig fs BREATH_LOW BREATH_HIGH
              = some (argmaxPair b bs).1 := by
          simp [dominant_freq_from_signal, h4', hbd]
        rw [hsome]
        constructor
        · intro h
          exact absurd h (by simp)
        · intro h
          exfalso
          have hbmem : b ∈ bandOf psd sig fs BREATH_LOW BREATH_HIGH := by
            rw [hbd]
            exact List.mem_cons_self _ _
          unfold bandOf at hbmem
          have hpred := List.of_mem_filter hbmem
          have hzip := List.mem_of_mem_filter hbmem
          obtain ⟨a, c⟩ := b
          have hfst := (List.of_mem_zip hzip).1
          simp only [Bool.and_eq_true, decide_eq_true_eq] at hpred
          exact h a hfst hpred
  · intro h4 hne
    have h4' : ¬ sig.length < 4 := not_lt.mpr h4
    cases hbd : bandOf psd sig fs BREATH_LOW BREATH_HIGH with
    | nil => exact absurd hbd hne
    | cons b bs =>
        obtain ⟨hmem, hbest, hall⟩ := argmaxPair_spec bs b
        refine ⟨argmaxPair b bs, ?_, ?_, ?_⟩
        · rcases hmem with h | h
          · rw [h]
            exact List.mem_cons_self _ _
          · exact List.mem_cons_of_mem _ h
        · simp [dominant_freq_from_signal, h4', hbd]
        · intro q hq
          rcases List.mem_cons.mp hq with h | h
          · rw [h]
            exact hbest
          · exact hall q h

/-- Abstract power spectrum used for the C4 witness: one unit of power
in every frequency bin. -/
def onesPSD : List ℚ → ℕ → List ℚ := fun _ n => List.replicate (n / 2 + 1) 1

/-- C4 witness: a 3-sample series yields `none`; a 4-sample series at
sampling rate 1 Hz has grid [0, 1/4, 1/2] with in-band bins, so the
estimator does not return `none` and returns the frequency of a
maximal-power in-band pair. -/
theorem C4_breathing_estimator_witness :
    dominant_freq_from_signal onesPSD [1, 2, 3] 20 BREATH_LOW BREATH_HIGH
        = none ∧
      dominant_freq_from_signal onesPSD [0, 0, 0, 1] 1 BREATH_LOW BREATH_HIGH
        ≠ none ∧
      ∃ p ∈ bandOf onesPSD [0, 0, 0, 1] 1 BREATH_LOW BREATH_HIGH,
        dominant_freq_from_signal onesPSD [0, 0, 0, 1] 1 BREATH_LOW BREATH_HIGH
            = some p.1 ∧
          ∀ q ∈ bandOf onesPSD [0, 0, 0, 1] 1 BREATH_LOW BREATH_HIGH,
            q.2 ≤ p.2 := by
  have hband : ((1:ℚ)/4, (1:ℚ)) ∈
      bandOf onesPSD [0, 0, 0, 1] 1 BREATH_LOW BREATH_HIGH := by
    unfold bandOf
    rw [List.mem_filter]
    constructor
    · have hf : rfftfreq (min 256 ([0, 0, 0, 1] : List ℚ).length) 1
          = [0, 1/4, 1/2] := by
        simp [rfftfreq, List.range_succ]
        norm_num
      have hP : onesPSD (detrendQ [0, 0, 0, 1]) (min 256 ([0, 0, 0, 1] : List ℚ).length)
          = [1, 1, 1] := by
        simp [onesPSD, List.replicate]
      rw [hf, hP]
      simp [List.zip]
    · simp only [Bool.and_eq_true, decide_eq_true_eq]
      constructor <;> norm_num [BREATH_LOW, BREATH_HIGH]
  refine ⟨?_, ?_, ?_⟩
  · exact (C4_breathing_estimator onesPSD [1, 2, 3] 20 (by simp [onesPSD])).1
      (by norm_num)
  · intro hnone
    have hiff := (C4_breathing_estimator onesPSD [0, 0, 0, 1] 1
      (by simp [onesPSD])).2.1 (by norm_num)
    have hall := hiff.mp hnone
    have := hall (1/4) (by
      have hf : rfftfreq (min 256 ([0, 0, 0, 1] : List ℚ).length) 1
          = [0, 1/4, 1/2] := by
        simp [rfftfreq, List.range_succ]
        norm_num
      rw [hf]
      norm_num)
    exact this ⟨by norm_num [BREATH_LOW], by norm_num [BREATH_HIGH]⟩
  · exact (C4_breathing_estimator onesPSD [0, 0, 0, 1] 1
      (by simp [onesPSD])).2.2 (by norm_num)
      (by intro hcontra; rw [hcontra] at hband; exact absurd hband (List.not_mem_nil _))

end Charcot
